import Mathlib

/-!
Verification of the recency-tracking core (EditorsHistory) of this
repository against its natural-language specification.

The repository excerpt contains the unit tests of the tracker
(src/unnamed/part_000, suite "Editors History") and the history service
interface (src/src/vs/workbench/services/history/common/history.ts); the
tracker implementation itself is not part of the excerpt.  The model below
is therefore built from the specification (spec.md, sections 3 and 4),
except where the tests of the repository pin down a behaviour that the
specification describes differently; those places are marked in the doc
comments of the corresponding definitions.

Panes (editor groups) and document views (editor inputs) are identified by
natural numbers.
-/

/-- Modelled from the spec: an Entry of the RecencyList is a pair of a pane
identifier and a document-view handle (spec section 3). -/
structure Entry where
  paneId : Nat
  view : Nat
deriving DecidableEq, Repr

/-- Modelled from the spec: the RecencyList is an ordered sequence of
entries, most recently used first (spec section 3). -/
abbrev RecencyList := List Entry

/-- Modelled from the spec: removal of the entry for a given
(pane, view) pair, keeping every other entry in order (spec sections 3
and 4.2). -/
def removeEntry (l : RecencyList) (p v : Nat) : RecencyList :=
  l.filter (fun e => !(decide (e = Entry.mk p v)))

/-- Modelled from the spec: handler for "view activated in pane P",
including "opened and made active": remove any existing entry for the pair
and insert a new entry at index 0 (spec section 4.2). -/
def activate (l : RecencyList) (p v : Nat) : RecencyList :=
  Entry.mk p v :: removeEntry l p v

/-- Modelled from the spec: handler for "view closed in pane P": remove
the entry for the pair if present, no-op otherwise (spec section 4.2). -/
def closeView (l : RecencyList) (p v : Nat) : RecencyList :=
  removeEntry l p v

/-- Modelled from the spec: handler for "pane closed": remove all entries
of the closed pane (spec section 4.2). -/
def closePane (l : RecencyList) (p : Nat) : RecencyList :=
  l.filter (fun e => !(decide (e.paneId = p)))

/-- Insert an entry directly after the first occurrence of a target entry;
used by the inactive-open handler. -/
def insertAfter (l : RecencyList) (target e : Entry) : RecencyList :=
  match l with
  | [] => [e]
  | x :: xs => if x = target then x :: e :: xs else x :: insertAfter xs target e

/-- Modelled from the spec: handler for "view opened inactive in pane P":
insert the entry for the pair immediately after the entry of the pane's
currently-active view a; if the pane has no prior entries, insert at
index 0 (spec section 4.2).  The active view a of the pane is supplied by
the pane manager collaborator. -/
def openInactive (l : RecencyList) (p a v : Nat) : RecencyList :=
  if l.any (fun e => decide (e.paneId = p)) then
    insertAfter l (Entry.mk p a) (Entry.mk p v)
  else
    Entry.mk p v :: l

/-- Modelled from the spec: the copy-pane handler as the specification
words it in section 4.2: for every entry of pane p, in relative order, a
new entry for the new pane q is inserted directly before the original
entry (entry-by-entry interleaving).  Kept for comparison; the test
"copy group" of the repository pins down a different behaviour, see
copyPane. -/
def copyPaneSpec (l : RecencyList) (p q : Nat) : RecencyList :=
  match l with
  | [] => []
  | e :: t =>
      if e.paneId = p then Entry.mk q e.view :: e :: copyPaneSpec t p q
      else e :: copyPaneSpec t p q

/-- Copy-pane handler with the behaviour pinned down by the repository
test "copy group" (src/unnamed/part_000 lines 245 to 261): the copies of
the entries of pane p are inserted as one contiguous block directly behind
the current head entry, in the same relative order as in pane p (each copy
is delivered to the tracker as an inactive open, which places it just
behind the most recent entry, oldest copy first).  This differs from the
entry-by-entry interleaving the specification describes in section 4.2. -/
def copyPane (l : RecencyList) (p q : Nat) : RecencyList :=
  match l with
  | [] => []
  | h :: t =>
      h :: (((h :: t).filter (fun e => decide (e.paneId = p))).map
        (fun e => Entry.mk q e.view) ++ t)

/-- Modelled from the spec: the state of the pane manager collaborator as
the tracker observes it at construction time: the panes in
most-recently-active-first order, each with its open views in
most-recently-active-first order (spec sections 4.1 and 6). -/
abbrev PaneState := List (Nat × List Nat)

/-- Enumeration of all (pane, view) pairs of a pane-manager state:
most-recently-active pane first and, within a pane, most-recently-active
view first. -/
def paneEnum (panes : PaneState) : List Entry :=
  panes.flatMap (fun g => g.2.map (fun v => Entry.mk g.1 v))

/-- Modelled from the spec: the construction-time snapshot seeds the list
as if every currently-open view had just been activated in activation
order, i.e. oldest pair first (spec section 4.1). -/
def snapshot (panes : PaneState) : RecencyList :=
  (paneEnum panes).reverse.foldl (fun l e => activate l e.paneId e.view) []

/-- Whether an entry still resolves against the pane manager: its pane
exists and the view is open in that pane. -/
def isOpen (panes : PaneState) (e : Entry) : Bool :=
  panes.any (fun g => decide (g.1 = e.paneId) && g.2.contains e.view)

/-- Modelled from the spec: the persistence pass on the about-to-terminate
signal keeps, in order, exactly the entries whose view type supports
serialization according to the SerializationRegistry; the others are
silently dropped (spec section 4.4).  A persisted record is modelled as
the entry itself, since the type tag and payload faithfully encode the
view. -/
def serializeList (canSer : Nat → Bool) (l : RecencyList) : List Entry :=
  l.filter (fun e => canSer e.view)

/-- Restoration of persisted records: each record that still resolves to
an open (pane, view) pair is kept, in persisted order; records that fail
to resolve are dropped and processing continues (spec section 7). -/
def restoreList (panes : PaneState) (records : List Entry) : RecencyList :=
  records.filter (fun e => isOpen panes e)

/-- Construction of the tracker against a key-value store, with the
behaviour pinned down by the persistence tests of the repository
(src/unnamed/part_000 lines 266 to 401): when the store holds a persisted
list, the restored records alone determine the list; the construction-time
snapshot is used only when no persisted state exists.  The test "history
does not restore editors that cannot be serialized" (lines 392 to 398)
requires this: a live open view that was dropped at serialization time
must be absent after restoration, which rules out the
append-after-snapshot description of spec section 4.4. -/
def construct (panes : PaneState) (store : Option (List Entry)) : RecencyList :=
  match store with
  | none => snapshot panes
  | some records => restoreList panes records

/-- Modelled from the spec: construction as section 4.4 words it, for
comparison with construct: the snapshot is always built, and restored
records that resolve and do not duplicate an already-live pair are
appended after it. -/
def constructSpecAppend (panes : PaneState) (store : Option (List Entry)) : RecencyList :=
  match store with
  | none => snapshot panes
  | some records =>
      snapshot panes ++ records.filter
        (fun e => isOpen panes e && !(decide (e ∈ snapshot panes)))

/-- Events delivered to the tracker by the pane manager (spec
section 4.2). -/
inductive Event where
  | openActive (p v : Nat)
  | activateView (p v : Nat)
  | openInactiveView (p a v : Nat)
  | closeViewEvent (p v : Nat)
  | closePaneEvent (p : Nat)
  | copyPaneEvent (p q : Nat)
deriving DecidableEq, Repr

/-- One synchronous event-handler step of the tracker. -/
def step (l : RecencyList) : Event → RecencyList
  | .openActive p v => activate l p v
  | .activateView p v => activate l p v
  | .openInactiveView p a v => openInactive l p a v
  | .closeViewEvent p v => closeView l p v
  | .closePaneEvent p => closePane l p
  | .copyPaneEvent p q => copyPane l p q

/-- Delivery of a sequence of events, left to right. -/
def run (s : List Event) (l : RecencyList) : RecencyList :=
  s.foldl step l

/-- Whether an event is an open-active, activate or close-view event, the
event kinds quantified over by the head property of spec section 8. -/
def isAC : Event → Bool
  | .openActive _ _ => true
  | .activateView _ _ => true
  | .closeViewEvent _ _ => true
  | _ => false

/-- Modelled from the spec: the most recently activated (or most recently
opened-active) pair of an event sequence that is not closed afterwards,
computed by walking the sequence backwards while collecting the pairs that
were closed since; reference function for the head property of spec
section 8. -/
def specHeadRev : List Event → List Entry → Option Entry
  | [], _ => none
  | .openActive p v :: rest, closed =>
      if Entry.mk p v ∈ closed then specHeadRev rest closed
      else some (Entry.mk p v)
  | .activateView p v :: rest, closed =>
      if Entry.mk p v ∈ closed then specHeadRev rest closed
      else some (Entry.mk p v)
  | .closeViewEvent p v :: rest, closed =>
      specHeadRev rest (Entry.mk p v :: closed)
  | _ :: rest, closed => specHeadRev rest closed

/-- Most recently activated surviving pair of an event sequence. -/
def specHead (s : List Event) : Option Entry :=
  specHeadRev s.reverse []

/-- Repeated view-closed events for one pane. -/
def closeViews (l : RecencyList) (p : Nat) (vs : List Nat) : RecencyList :=
  vs.foldl (fun acc v => closeView acc p v) l

/-- Recency list of the single-group tests after opening views 1, 2, 3
active in pane 0: most recent first. -/
def threeRoot : RecencyList := [Entry.mk 0 3, Entry.mk 0 2, Entry.mk 0 1]

theorem mem_removeEntry {l : RecencyList} {p v : Nat} {e : Entry} :
    e ∈ removeEntry l p v ↔ e ∈ l ∧ e ≠ Entry.mk p v := by
  simp [removeEntry, List.mem_filter]

theorem removeEntry_eq_self {l : RecencyList} {p v : Nat}
    (h : Entry.mk p v ∉ l) : removeEntry l p v = l := by
  apply List.filter_eq_self.mpr
  intro a ha
  simp only [Bool.not_eq_true', decide_eq_false_iff_not]
  intro heq
  exact h (heq ▸ ha)

theorem removeEntry_sublist (l : RecencyList) (p v : Nat) :
    (removeEntry l p v).Sublist l :=
  List.filter_sublist l

theorem head_insertAfter (x : Entry) (xs : List Entry) (target e : Entry) :
    (insertAfter (x :: xs) target e).head? = some x := by
  simp only [insertAfter]
  split <;> rfl

theorem insertAfter_decomp {l : RecencyList} {target : Entry} (e : Entry)
    (h : target ∈ l) :
    ∃ l1 l2, l = l1 ++ target :: l2 ∧ target ∉ l1 ∧
      insertAfter l target e = l1 ++ target :: e :: l2 := by
  induction l with
  | nil => cases h
  | cons x xs ih =>
      by_cases hx : x = target
      · subst hx
        exact ⟨[], xs, rfl, List.not_mem_nil x, by simp [insertAfter]⟩
      · have hmem : target ∈ xs := by
          rcases List.mem_cons.mp h with h1 | h1
          · exact absurd h1.symm hx
          · exact h1
        rcases ih hmem with ⟨l1, l2, hxs, hnm, hins⟩
        refine ⟨x :: l1, l2, by rw [hxs]; rfl, ?_, ?_⟩
        · intro hmm
          rcases List.mem_cons.mp hmm with h2 | h2
          · exact hx h2.symm
          · exact hnm h2
        · simp [insertAfter, hx, hins]

/-- C9: delivering a view-activated event for the pair whose entry is
already at index 0 leaves the entire list unchanged; the removal followed
by reinsertion at index 0 is the identity.  The hypothesis that the pair
does not occur further down is the no-duplicates invariant of the
tracker. -/
theorem c9_activate_head_noop (t : RecencyList) (p v : Nat)
    (h : Entry.mk p v ∉ t) :
    activate (Entry.mk p v :: t) p v = Entry.mk p v :: t := by
  have hrem : removeEntry (Entry.mk p v :: t) p v = removeEntry t p v := by
    simp [removeEntry]
  rw [activate, hrem, removeEntry_eq_self h]

/-- C9 witness: activating the pair at index 0 of a concrete two-entry
list leaves the list unchanged. -/
theorem c9_activate_head_noop_witness :
    activate [Entry.mk 0 7, Entry.mk 1 7] 0 7 = [Entry.mk 0 7, Entry.mk 1 7] :=
  c9_activate_head_noop [Entry.mk 1 7] 0 7 (by decide)

/-- C4 counterexample: opening a view inactive in a pane that has no
prior entries inserts at index 0 (spec section 4.2) and therefore does
change which entry is at index 0 when other panes already have entries,
contradicting the second half of the claim. -/
theorem c4_open_inactive_counterexample :
    openInactive [Entry.mk 1 10] 2 0 20 = [Entry.mk 2 20, Entry.mk 1 10] ∧
      (openInactive [Entry.mk 1 10] 2 0 20).head? ≠
        ([Entry.mk 1 10] : RecencyList).head? := by
  constructor
  · rfl
  · decide

/-- C4 amended: opening a view inactive in pane p inserts its entry
immediately after the entry of the pane's currently-active view a; when
the pane has at least one entry the head of the list is unchanged; when
the pane has no prior entries the entry is inserted at index 0, which
replaces the head whenever the list is nonempty. -/
theorem c4_open_inactive_insert_after_active (l : RecencyList) (p a v : Nat) :
    (l.any (fun e => decide (e.paneId = p)) = true →
      (openInactive l p a v).head? = l.head?) ∧
    (l.any (fun e => decide (e.paneId = p)) = true → Entry.mk p a ∈ l →
      ∃ l1 l2, l = l1 ++ Entry.mk p a :: l2 ∧ Entry.mk p a ∉ l1 ∧
        openInactive l p a v = l1 ++ Entry.mk p a :: Entry.mk p v :: l2) ∧
    (l.any (fun e => decide (e.paneId = p)) = false →
      openInactive l p a v = Entry.mk p v :: l) := by
  refine ⟨?_, ?_, ?_⟩
  · intro hany
    cases l with
    | nil => simp at hany
    | cons x xs =>
        rw [openInactive, if_pos hany, head_insertAfter]
        rfl
  · intro hany hmem
    rcases insertAfter_decomp (Entry.mk p v) hmem with ⟨l1, l2, hdec, hnm, hins⟩
    exact ⟨l1, l2, hdec, hnm, by rw [openInactive, if_pos hany, hins]⟩
  · intro hany
    rw [openInactive, if_neg (by simp [hany])]

/-- C4 witness: opening view 6 inactive in pane 0 whose active view 5
holds the only entry inserts the new entry directly behind it. -/
theorem c4_open_inactive_insert_after_active_witness :
    ∃ l1 l2, [Entry.mk 0 5] = l1 ++ Entry.mk 0 5 :: l2 ∧ Entry.mk 0 5 ∉ l1 ∧
      openInactive [Entry.mk 0 5] 0 5 6 = l1 ++ Entry.mk 0 5 :: Entry.mk 0 6 :: l2 :=
  (c4_open_inactive_insert_after_active [Entry.mk 0 5] 0 5 6).2.1
    (by decide) (by decide)

theorem removeEntry_filter_pane {p q : Nat} (hq : q ≠ p) (v : Nat)
    (l : RecencyList) :
    (removeEntry l p v).filter (fun e => decide (e.paneId = q)) =
      l.filter (fun e => decide (e.paneId = q)) := by
  rw [removeEntry, List.filter_comm]
  apply List.filter_eq_self.mpr
  intro e he
  have hmem := List.mem_filter.mp he
  have hpq : e.paneId = q := by simpa using hmem.2
  simp only [Bool.not_eq_true', decide_eq_false_iff_not]
  intro heq
  subst heq
  exact hq hpq.symm

theorem mem_removeEntry_of_pane_ne {l : RecencyList} {e : Entry} {p v : Nat}
    (he : e ∈ l) (hp : e.paneId ≠ p) : e ∈ removeEntry l p v := by
  apply mem_removeEntry.mpr
  refine ⟨he, ?_⟩
  intro heq
  subst heq
  exact hp rfl

/-- C10: view-closed events delivered for one pane p only remove entries
of pane p; for every other pane q its entries remain present and keep
their relative order, even when the closed views are the same document
views. -/
theorem c10_close_pane_frame (l : RecencyList) (p : Nat) (vs : List Nat)
    (q : Nat) (hq : q ≠ p) :
    (closeViews l p vs).filter (fun e => decide (e.paneId = q)) =
      l.filter (fun e => decide (e.paneId = q)) ∧
    (∀ e ∈ l, e.paneId ≠ p → e ∈ closeViews l p vs) := by
  induction vs generalizing l with
  | nil => exact ⟨rfl, fun e he _ => he⟩
  | cons v vs ih =>
      have hstep : closeViews l p (v :: vs) = closeViews (closeView l p v) p vs := rfl
      rcases ih (closeView l p v) with ⟨h1, h2⟩
      refine ⟨?_, ?_⟩
      · rw [hstep, h1, closeView, removeEntry_filter_pane hq]
      · intro e he hp
        rw [hstep]
        exact h2 e (mem_removeEntry_of_pane_ne he hp) hp

/-- C10 witness: closing view 1 in pane 0 leaves the entry of pane 1 for
the same view 1 present with its order intact. -/
theorem c10_close_pane_frame_witness :
    (closeViews [Entry.mk 0 1, Entry.mk 1 1] 0 [1]).filter
        (fun e => decide (e.paneId = 1)) =
      ([Entry.mk 0 1, Entry.mk 1 1] : RecencyList).filter
        (fun e => decide (e.paneId = 1)) :=
  (c10_close_pane_frame [Entry.mk 0 1, Entry.mk 1 1] 0 [1] 1 (by decide)).1

/-- C8: on the about-to-terminate persistence pass, the serialized list is
a sublist of the tracker list (so dropping entries does not disturb the
relative order of the rest), every persisted entry supports serialization,
every entry that supports serialization is kept, and an entry whose view
type cannot serialize does not reappear after restart: it is absent from
any tracker constructed from the persisted list.  The pass is a total
function, so nothing is raised. -/
theorem c8_nonserializable_dropped (canSer : Nat → Bool) (panes : PaneState)
    (l : RecencyList) :
    (serializeList canSer l).Sublist l ∧
    (∀ e ∈ serializeList canSer l, canSer e.view = true) ∧
    (∀ e ∈ l, canSer e.view = true → e ∈ serializeList canSer l) ∧
    (∀ e ∈ l, canSer e.view = false →
      e ∉ construct panes (some (serializeList canSer l))) := by
  refine ⟨List.filter_sublist l, ?_, ?_, ?_⟩
  · intro e he
    exact (List.mem_filter.mp he).2
  · intro e he hc
    exact List.mem_filter.mpr ⟨he, hc⟩
  · intro e _ hc hmem
    have h1 : e ∈ serializeList canSer l :=
      List.Sublist.mem hmem (List.filter_sublist _)
    have h2 : canSer e.view = true := (List.mem_filter.mp h1).2
    rw [hc] at h2
    cases h2

/-- C8 witness: the scenario of the test "history does not restore editors
that cannot be serialized": view 1 cannot serialize, so its entry is
absent from the tracker constructed from the persisted list. -/
theorem c8_nonserializable_dropped_witness :
    Entry.mk 0 1 ∉ construct [(0, [1])]
      (some (serializeList (fun v => decide (v ≠ 1)) [Entry.mk 0 1])) :=
  (c8_nonserializable_dropped (fun v => decide (v ≠ 1)) [(0, [1])]
    [Entry.mk 0 1]).2.2.2 (Entry.mk 0 1) (by decide) (by decide)

/-- C2: round trip through persistence: if the tracker serializes its
list l on the about-to-terminate signal, and a fresh tracker is then
constructed against the same key-value store while the same panes are
still open (every entry of l still resolves), then the fresh tracker
holds exactly l with the entries whose view type cannot serialize
removed, in the same relative order. -/
theorem c2_persistence_round_trip (canSer : Nat → Bool) (panes : PaneState)
    (l : RecencyList) (h : ∀ e ∈ l, isOpen panes e = true) :
    construct panes (some (serializeList canSer l)) =
      l.filter (fun e => canSer e.view) := by
  show restoreList panes (serializeList canSer l) = l.filter (fun e => canSer e.view)
  rw [restoreList, serializeList]
  apply List.filter_eq_self.mpr
  intro e he
  exact h e (List.mem_filter.mp he).1

/-- C2 witness: the scenario of the persistence test with a single pane
holding views 3, 2, 1, all serializable: the restored tracker equals the
serialized list. -/
theorem c2_persistence_round_trip_witness :
    construct [(0, [3, 2, 1])]
        (some (serializeList (fun _ => true) threeRoot)) =
      threeRoot.filter (fun e => (fun _ => true) e.view) :=
  c2_persistence_round_trip (fun _ => true) [(0, [3, 2, 1])] threeRoot
    (by decide)

/-- C6 counterexample: the scenario of the test "history does not restore
editors that cannot be serialized": pane 0 holds the open view 1 whose
type cannot serialize, so the persisted list is empty.  Appending the
restored records after the live construction snapshot, as the claim
states, would leave the live entry in place, but the tracker built by the
code is empty, as the test asserts. -/
theorem c6_restore_counterexample :
    constructSpecAppend [(0, [1])]
        (some (serializeList (fun v => decide (v ≠ 1)) [Entry.mk 0 1])) =
      [Entry.mk 0 1] ∧
    construct [(0, [1])]
        (some (serializeList (fun v => decide (v ≠ 1)) [Entry.mk 0 1])) = [] ∧
    ([Entry.mk 0 1] : RecencyList) ≠ [] := by
  refine ⟨by decide, by decide, by decide⟩

/-- C6 amended: at restore time a present persisted list replaces the
construction-time snapshot instead of being appended to it; the restored
entries are the persisted records that still resolve to an open
(pane, view) pair, kept in their persisted relative order (a sublist of
the records), and when the persisted records are pairwise distinct no
duplicate pair is introduced.  The snapshot is used only when no
persisted state exists. -/
theorem c6_restore_replaces_snapshot (panes : PaneState)
    (records : List Entry) :
    (construct panes (some records)).Sublist records ∧
    (∀ e ∈ construct panes (some records), isOpen panes e = true) ∧
    (∀ e ∈ records, isOpen panes e = true → e ∈ construct panes (some records)) ∧
    (records.Nodup → (construct panes (some records)).Nodup) := by
  refine ⟨List.filter_sublist records, ?_, ?_, ?_⟩
  · intro e he
    exact (List.mem_filter.mp he).2
  · intro e he hres
    exact List.mem_filter.mpr ⟨he, hres⟩
  · intro hnd
    exact List.Nodup.sublist (List.filter_sublist records) hnd

/-- C6 witness: restoring the records of the multi-pane persistence test
keeps them all, in persisted order, as a sublist of the records, and the
resolving head record is present. -/
theorem c6_restore_replaces_snapshot_witness :
    (construct [(1, [3]), (0, [2, 1])]
        (some [Entry.mk 1 3, Entry.mk 0 2, Entry.mk 0 1])).Sublist
      [Entry.mk 1 3, Entry.mk 0 2, Entry.mk 0 1] ∧
    Entry.mk 1 3 ∈ construct [(1, [3]), (0, [2, 1])]
      (some [Entry.mk 1 3, Entry.mk 0 2, Entry.mk 0 1]) :=
  ⟨(c6_restore_replaces_snapshot [(1, [3]), (0, [2, 1])]
      [Entry.mk 1 3, Entry.mk 0 2, Entry.mk 0 1]).1,
    (c6_restore_replaces_snapshot [(1, [3]), (0, [2, 1])]
      [Entry.mk 1 3, Entry.mk 0 2, Entry.mk 0 1]).2.2.1
      (Entry.mk 1 3) (by decide) (by decide)⟩

theorem foldl_activate_of_nodup (es : List Entry) (hnd : es.Nodup) :
    es.reverse.foldl (fun l e => activate l e.paneId e.view) [] = es := by
  induction es with
  | nil => rfl
  | cons e rest ih =>
      rcases List.nodup_cons.mp hnd with ⟨hnm, hrest⟩
      rw [List.reverse_cons, List.foldl_append, ih hrest]
      show activate rest e.paneId e.view = e :: rest
      have heta : Entry.mk e.paneId e.view = e := rfl
      rw [activate, heta, removeEntry_eq_self (heta ▸ hnm)]

theorem snapshot_eq_paneEnum (panes : PaneState)
    (hnd : (paneEnum panes).Nodup) : snapshot panes = paneEnum panes :=
  foldl_activate_of_nodup (paneEnum panes) hnd

/-- C5: constructed while panes and views are already open and with no
persisted state to restore, the tracker seeds one entry per (pane, view)
pair, most-recently-active pane first and, within each pane,
most-recently-active view first, so that the active view of the globally
active pane is at index 0.  The panes argument lists the panes in
most-recently-active order, each with its views in most-recently-active
order; the hypothesis states that no (pane, view) pair occurs twice. -/
theorem c5_initial_snapshot_order (panes : PaneState)
    (hnd : (paneEnum panes).Nodup) :
    construct panes none = paneEnum panes ∧
    (∀ p v vs rest, panes = (p, v :: vs) :: rest →
      (construct panes none).head? = some (Entry.mk p v)) := by
  constructor
  · exact snapshot_eq_paneEnum panes hnd
  · intro p v vs rest hp
    rw [show construct panes none = snapshot panes from rfl,
      snapshot_eq_paneEnum panes hnd, hp]
    simp [paneEnum]

/-- C5 witness: the pane state of the multi-pane initial-history test,
pane 1 active with view 3 and pane 0 holding views 2 then 1: the seeded
list is the enumeration and its head is the active pair. -/
theorem c5_initial_snapshot_order_witness :
    construct [(1, [3]), (0, [2, 1])] none = paneEnum [(1, [3]), (0, [2, 1])] ∧
    (construct [(1, [3]), (0, [2, 1])] none).head? = some (Entry.mk 1 3) :=
  ⟨(c5_initial_snapshot_order [(1, [3]), (0, [2, 1])] (by decide)).1,
    (c5_initial_snapshot_order [(1, [3]), (0, [2, 1])] (by decide)).2
      1 3 [] [(0, [2, 1])] rfl⟩

theorem activate_nodup (l : RecencyList) (p v : Nat) (hnd : l.Nodup) :
    (activate l p v).Nodup := by
  apply List.nodup_cons.mpr
  constructor
  · intro hmem
    exact (mem_removeEntry.mp hmem).2 rfl
  · exact List.Nodup.sublist (removeEntry_sublist l p v) hnd

theorem mem_insertAfter {l : RecencyList} {target e y : Entry}
    (h : y ∈ insertAfter l target e) : y ∈ l ∨ y = e := by
  induction l with
  | nil =>
      simp only [insertAfter, List.mem_singleton] at h
      exact Or.inr h
  | cons x xs ih =>
      simp only [insertAfter] at h
      split at h
      · rcases List.mem_cons.mp h with h1 | h1
        · exact Or.inl (List.mem_cons.mpr (Or.inl h1))
        · rcases List.mem_cons.mp h1 with h2 | h2
          · exact Or.inr h2
          · exact Or.inl (List.mem_cons.mpr (Or.inr h2))
      · rcases List.mem_cons.mp h with h1 | h1
        · exact Or.inl (List.mem_cons.mpr (Or.inl h1))
        · rcases ih h1 with h2 | h2
          · exact Or.inl (List.mem_cons.mpr (Or.inr h2))
          · exact Or.inr h2

theorem insertAfter_nodup {l : RecencyList} {target e : Entry}
    (hnd : l.Nodup) (he : e ∉ l) : (insertAfter l target e).Nodup := by
  induction l with
  | nil => simp [insertAfter]
  | cons x xs ih =>
      rcases List.nodup_cons.mp hnd with ⟨hx, hxs⟩
      have hex : e ∉ xs := fun hmm => he (List.mem_cons.mpr (Or.inr hmm))
      have hxe : x ≠ e := fun hmm => he (List.mem_cons.mpr (Or.inl hmm.symm))
      simp only [insertAfter]
      split
      · apply List.nodup_cons.mpr
        refine ⟨?_, List.nodup_cons.mpr ⟨hex, hxs⟩⟩
        intro hmm
        rcases List.mem_cons.mp hmm with h1 | h1
        · exact hxe h1
        · exact hx h1
      · apply List.nodup_cons.mpr
        refine ⟨?_, ih hxs hex⟩
        intro hmm
        rcases mem_insertAfter hmm with h1 | h1
        · exact hx h1
        · exact hxe h1

theorem removeEntry_length_of_mem {l : RecencyList} {p v : Nat}
    (hnd : l.Nodup) (hmem : Entry.mk p v ∈ l) :
    (removeEntry l p v).length + 1 = l.length := by
  induction l with
  | nil => cases hmem
  | cons x xs ih =>
      rcases List.nodup_cons.mp hnd with ⟨hx, hxs⟩
      by_cases hxe : x = Entry.mk p v
      · subst hxe
        have h1 : removeEntry (Entry.mk p v :: xs) p v = removeEntry xs p v := by
          simp [removeEntry]
        rw [h1, removeEntry_eq_self hx]
        rfl
      · have hmem2 : Entry.mk p v ∈ xs := by
          rcases List.mem_cons.mp hmem with h1 | h1
          · exact absurd h1.symm hxe
          · exact h1
        have h1 : removeEntry (x :: xs) p v = x :: removeEntry xs p v := by
          simp [removeEntry, hxe]
        rw [h1, List.length_cons, List.length_cons, ih hxs hmem2]

theorem copyPane_nodup {l : RecencyList} {p q : Nat} (hnd : l.Nodup)
    (hq : ∀ e ∈ l, e.paneId ≠ q) : (copyPane l p q).Nodup := by
  cases l with
  | nil => exact List.nodup_nil
  | cons h t =>
      rcases List.nodup_cons.mp hnd with ⟨hh, ht⟩
      have hfnd : ((h :: t).filter (fun e => decide (e.paneId = p))).Nodup :=
        List.Nodup.sublist (List.filter_sublist _) hnd
      have hcs : (((h :: t).filter (fun e => decide (e.paneId = p))).map
          (fun e => Entry.mk q e.view)).Nodup := by
        apply List.Nodup.map_on ?_ hfnd
        intro x hx y hy hxy
        have hxp : x.paneId = p := by
          simpa using (List.mem_filter.mp hx).2
        have hyp : y.paneId = p := by
          simpa using (List.mem_filter.mp hy).2
        have hv : x.view = y.view := by simpa using hxy
        cases x
        cases y
        simp only at hxp hyp hv
        simp [hxp, hyp, hv]
      rw [copyPane]
      apply List.nodup_cons.mpr
      constructor
      · intro hmm
        rcases List.mem_append.mp hmm with h1 | h1
        · rcases List.mem_map.mp h1 with ⟨x, _, hx2⟩
          have : h.paneId = q := by rw [← hx2]
          exact hq h (List.mem_cons_self h t) this
        · exact hh h1
      · apply List.nodup_append.mpr
        refine ⟨hcs, ht, ?_⟩
        intro x hx hy
        rcases List.mem_map.mp hx with ⟨z, _, hz2⟩
        have hxq : x.paneId = q := by rw [← hz2]
        exact hq x (List.mem_cons.mpr (Or.inr hy)) hxq

/-- C7: the no-duplicates invariant: every operation of the tracker
(construction snapshot, restore, activate, open-inactive, close-view,
close-pane, pane-copy) preserves pairwise distinctness of the
(paneId, view) entries; the same view open in two distinct panes yields
two distinct entries; and re-activating an already-present pair never
grows the list. -/
theorem c7_no_duplicate_pairs :
    (∀ (panes : PaneState), (paneEnum panes).Nodup → (snapshot panes).Nodup) ∧
    (∀ (panes : PaneState) (records : List Entry), records.Nodup →
      (construct panes (some records)).Nodup) ∧
    (∀ (l : RecencyList) (p v : Nat), l.Nodup → (activate l p v).Nodup) ∧
    (∀ (l : RecencyList) (p a v : Nat), l.Nodup → Entry.mk p v ∉ l →
      (openInactive l p a v).Nodup) ∧
    (∀ (l : RecencyList) (p v : Nat), l.Nodup → (closeView l p v).Nodup) ∧
    (∀ (l : RecencyList) (p : Nat), l.Nodup → (closePane l p).Nodup) ∧
    (∀ (l : RecencyList) (p q : Nat), l.Nodup → (∀ e ∈ l, e.paneId ≠ q) →
      (copyPane l p q).Nodup) ∧
    (∀ (p1 p2 v : Nat), p1 ≠ p2 → Entry.mk p1 v ≠ Entry.mk p2 v) ∧
    (∀ (l : RecencyList) (p v : Nat), l.Nodup → Entry.mk p v ∈ l →
      (activate l p v).length = l.length) := by
  refine ⟨?_, ?_, ?_, ?_, ?_, ?_, ?_, ?_, ?_⟩
  · intro panes hnd
    rw [snapshot_eq_paneEnum panes hnd]
    exact hnd
  · intro panes records hnd
    exact List.Nodup.sublist (List.filter_sublist records) hnd
  · exact fun l p v hnd => activate_nodup l p v hnd
  · intro l p a v hnd hnm
    rw [openInactive]
    split
    · exact insertAfter_nodup hnd hnm
    · exact List.nodup_cons.mpr ⟨hnm, hnd⟩
  · intro l p v hnd
    exact List.Nodup.sublist (removeEntry_sublist l p v) hnd
  · intro l p hnd
    exact List.Nodup.sublist (List.filter_sublist l) hnd
  · exact fun l p q hnd hq => copyPane_nodup hnd hq
  · intro p1 p2 v hne heq
    exact hne (congrArg Entry.paneId heq)
  · intro l p v hnd hmem
    rw [activate, List.length_cons, removeEntry_length_of_mem hnd hmem]

/-- C7 witness: concrete instances of the invariant: activating a fresh
pair and re-activating a present pair on a two-entry duplicate-free list,
and copying a pane into a fresh pane, all keep the entries pairwise
distinct, and re-activation keeps the length. -/
theorem c7_no_duplicate_pairs_witness :
    (activate [Entry.mk 0 5, Entry.mk 1 5] 0 6).Nodup ∧
    (activate [Entry.mk 0 5, Entry.mk 1 5] 1 5).length =
      ([Entry.mk 0 5, Entry.mk 1 5] : RecencyList).length ∧
    (copyPane [Entry.mk 0 5, Entry.mk 1 5] 0 2).Nodup ∧
    (openInactive [Entry.mk 0 5, Entry.mk 1 5] 0 5 6).Nodup :=
  ⟨c7_no_duplicate_pairs.2.2.1 [Entry.mk 0 5, Entry.mk 1 5] 0 6 (by decide),
    c7_no_duplicate_pairs.2.2.2.2.2.2.2.2 [Entry.mk 0 5, Entry.mk 1 5] 1 5
      (by decide) (by decide),
    c7_no_duplicate_pairs.2.2.2.2.2.2.1 [Entry.mk 0 5, Entry.mk 1 5] 0 2
      (by decide) (by decide),
    c7_no_duplicate_pairs.2.2.2.1 [Entry.mk 0 5, Entry.mk 1 5] 0 5 6
      (by decide) (by decide)⟩

/-- C3 counterexample: the scenario of the test "copy group": pane 0
holds views 3, 2, 1 in most-recently-used order; pane 0 is copied into
the fresh pane 1, which then becomes active.  The entry-by-entry
interleaving that the claim states, applied to this input, produces a
list different from the one the repository test asserts, which is the
one the block-insertion behaviour produces. -/
theorem c3_copy_counterexample :
    copyPaneSpec threeRoot 0 1 =
      [Entry.mk 1 3, Entry.mk 0 3, Entry.mk 1 2, Entry.mk 0 2,
        Entry.mk 1 1, Entry.mk 0 1] ∧
    activate (copyPane threeRoot 0 1) 1 3 =
      [Entry.mk 1 3, Entry.mk 0 3, Entry.mk 1 2, Entry.mk 1 1,
        Entry.mk 0 2, Entry.mk 0 1] ∧
    activate (copyPaneSpec threeRoot 0 1) 1 3 ≠
      activate (copyPane threeRoot 0 1) 1 3 := by
  refine ⟨by decide, by decide, by decide⟩

/-- C3 amended: copying pane p with N entries into the fresh pane q grows
the list by N entries: the copies are inserted as one contiguous block
directly behind the current head entry, in the same relative order as the
entries of pane p (not interleaved entry-by-entry with them); the entries
of pane p keep their relative order, the entries of pane q mirror the
view sequence of pane p, and the head of the list is unchanged by the
copy itself. -/
theorem c3_copy_block_behind_head (l : RecencyList) (p q : Nat)
    (hne : l ≠ []) (hpq : p ≠ q) (hq : ∀ e ∈ l, e.paneId ≠ q) :
    (copyPane l p q).length =
      l.length + (l.filter (fun e => decide (e.paneId = p))).length ∧
    (copyPane l p q).filter (fun e => decide (e.paneId = p)) =
      l.filter (fun e => decide (e.paneId = p)) ∧
    (copyPane l p q).filter (fun e => decide (e.paneId = q)) =
      (l.filter (fun e => decide (e.paneId = p))).map
        (fun e => Entry.mk q e.view) ∧
    (copyPane l p q).head? = l.head? := by
  obtain ⟨x, t, rfl⟩ := List.exists_cons_of_ne_nil hne
  have hxq : x.paneId ≠ q := hq x (List.mem_cons_self x t)
  have htq : ∀ e ∈ t, e.paneId ≠ q :=
    fun e he => hq e (List.mem_cons.mpr (Or.inr he))
  have hmapq : ∀ e ∈ ((x :: t).filter (fun e => decide (e.paneId = p))).map
      (fun e => Entry.mk q e.view), e.paneId = q := by
    intro e he
    rcases List.mem_map.mp he with ⟨z, _, hz⟩
    rw [← hz]
  have hcsP : (((x :: t).filter (fun e => decide (e.paneId = p))).map
      (fun e => Entry.mk q e.view)).filter
        (fun e => decide (e.paneId = p)) = [] := by
    apply List.filter_eq_nil_iff.mpr
    intro e he
    have := hmapq e he
    simp only [decide_eq_true_eq]
    rw [this]
    exact fun hqp => hpq hqp.symm
  have hcsQ : (((x :: t).filter (fun e => decide (e.paneId = p))).map
      (fun e => Entry.mk q e.view)).filter
        (fun e => decide (e.paneId = q)) =
      ((x :: t).filter (fun e => decide (e.paneId = p))).map
        (fun e => Entry.mk q e.view) := by
    apply List.filter_eq_self.mpr
    intro e he
    simp [hmapq e he]
  have htQ : t.filter (fun e => decide (e.paneId = q)) = [] := by
    apply List.filter_eq_nil_iff.mpr
    intro e he
    simpa using htq e he
  refine ⟨?_, ?_, ?_, rfl⟩
  · simp only [copyPane, List.length_cons, List.length_append,
      List.length_map]
    omega
  · show (x :: (((x :: t).filter (fun e => decide (e.paneId = p))).map
        (fun e => Entry.mk q e.view) ++ t)).filter
          (fun e => decide (e.paneId = p)) =
      (x :: t).filter (fun e => decide (e.paneId = p))
    rw [List.filter_cons, List.filter_append, hcsP, List.filter_cons]
    simp
  · show (x :: (((x :: t).filter (fun e => decide (e.paneId = p))).map
        (fun e => Entry.mk q e.view) ++ t)).filter
          (fun e => decide (e.paneId = q)) =
      ((x :: t).filter (fun e => decide (e.paneId = p))).map
        (fun e => Entry.mk q e.view)
    rw [List.filter_cons, List.filter_append, hcsQ, htQ]
    simp [hxq]

/-- C3 witness: the copy step of the test "copy group" instantiated:
copying pane 0 holding views 3, 2, 1 into the fresh pane 1 doubles the
length, preserves the projections of both panes and keeps the head. -/
theorem c3_copy_block_behind_head_witness :
    (copyPane threeRoot 0 1).length =
      threeRoot.length + (threeRoot.filter (fun e => decide (e.paneId = 0))).length ∧
    (copyPane threeRoot 0 1).filter (fun e => decide (e.paneId = 0)) =
      threeRoot.filter (fun e => decide (e.paneId = 0)) ∧
    (copyPane threeRoot 0 1).filter (fun e => decide (e.paneId = 1)) =
      (threeRoot.filter (fun e => decide (e.paneId = 0))).map
        (fun e => Entry.mk 1 e.view) ∧
    (copyPane threeRoot 0 1).head? = threeRoot.head? :=
  c3_copy_block_behind_head threeRoot 0 1 (by decide) (by decide) (by decide)

theorem removeEntry_filter_closed (l : RecencyList) (p v : Nat)
    (closed : List Entry) :
    (removeEntry l p v).filter (fun e => !(decide (e ∈ closed))) =
      l.filter (fun e => !(decide (e ∈ Entry.mk p v :: closed))) := by
  induction l with
  | nil => rfl
  | cons x xs ih =>
      by_cases hx : x = Entry.mk p v
      · subst hx
        have h1 : removeEntry (Entry.mk p v :: xs) p v = removeEntry xs p v := by
          simp [removeEntry]
        rw [h1, ih, List.filter_cons]
        simp
      · have h1 : removeEntry (x :: xs) p v = x :: removeEntry xs p v := by
          simp [removeEntry, hx]
        rw [h1, List.filter_cons, List.filter_cons, ih]
        by_cases hc : x ∈ closed
        · simp [hc]
        · simp [hc, hx]

theorem specHeadRev_congr : ∀ (s : List Event) (c1 c2 : List Entry),
    (∀ x : Entry, x ∈ c1 ↔ x ∈ c2) → specHeadRev s c1 = specHeadRev s c2
  | [], _, _, _ => rfl
  | .openActive p v :: rest, c1, c2, h => by
      show (if Entry.mk p v ∈ c1 then specHeadRev rest c1
          else some (Entry.mk p v)) =
        (if Entry.mk p v ∈ c2 then specHeadRev rest c2
          else some (Entry.mk p v))
      by_cases hm : Entry.mk p v ∈ c1
      · rw [if_pos hm, if_pos ((h _).mp hm)]
        exact specHeadRev_congr rest c1 c2 h
      · rw [if_neg hm, if_neg (fun hmm => hm ((h _).mpr hmm))]
  | .activateView p v :: rest, c1, c2, h => by
      show (if Entry.mk p v ∈ c1 then specHeadRev rest c1
          else some (Entry.mk p v)) =
        (if Entry.mk p v ∈ c2 then specHeadRev rest c2
          else some (Entry.mk p v))
      by_cases hm : Entry.mk p v ∈ c1
      · rw [if_pos hm, if_pos ((h _).mp hm)]
        exact specHeadRev_congr rest c1 c2 h
      · rw [if_neg hm, if_neg (fun hmm => hm ((h _).mpr hmm))]
  | .closeViewEvent p v :: rest, c1, c2, h => by
      show specHeadRev rest (Entry.mk p v :: c1) =
        specHeadRev rest (Entry.mk p v :: c2)
      apply specHeadRev_congr
      intro x
      simp [List.mem_cons, h x]
  | .openInactiveView p a v :: rest, c1, c2, h =>
      specHeadRev_congr rest c1 c2 h
  | .closePaneEvent p :: rest, c1, c2, h =>
      specHeadRev_congr rest c1 c2 h
  | .copyPaneEvent p q :: rest, c1, c2, h =>
      specHeadRev_congr rest c1 c2 h

theorem run_head_specHeadRev (s : List Event) :
    (∀ e ∈ s, isAC e = true) → ∀ closed : List Entry,
      ((run s []).filter (fun e => !(decide (e ∈ closed)))).head? =
        specHeadRev s.reverse closed := by
  induction s using List.reverseRecOn with
  | nil => intro _ closed; rfl
  | append_singleton s e ih =>
      intro hac closed
      have hacs : ∀ x ∈ s, isAC x = true :=
        fun x hx => hac x (List.mem_append.mpr (Or.inl hx))
      have hace : isAC e = true :=
        hac e (List.mem_append.mpr (Or.inr (List.mem_singleton.mpr rfl)))
      have hrun : run (s ++ [e]) [] = step (run s []) e := by
        simp [run, List.foldl_append]
      have hrev : (s ++ [e]).reverse = e :: s.reverse := by
        simp
      rw [hrun, hrev]
      cases e with
      | openActive p v =>
          show ((activate (run s []) p v).filter
              (fun e => !(decide (e ∈ closed)))).head? =
            (if Entry.mk p v ∈ closed then specHeadRev s.reverse closed
              else some (Entry.mk p v))
          by_cases hm : Entry.mk p v ∈ closed
          · rw [if_pos hm, activate, List.filter_cons]
            have hcond : (!(decide (Entry.mk p v ∈ closed))) = false := by
              simp [hm]
            rw [hcond]
            simp only [Bool.false_eq_true, if_false]
            rw [removeEntry_filter_closed, ih hacs (Entry.mk p v :: closed)]
            apply specHeadRev_congr
            intro x
            constructor
            · intro hx
              rcases List.mem_cons.mp hx with h1 | h1
              · exact h1 ▸ hm
              · exact h1
            · exact fun hx => List.mem_cons.mpr (Or.inr hx)
          · rw [if_neg hm, activate, List.filter_cons]
            have hcond : (!(decide (Entry.mk p v ∈ closed))) = true := by
              simp [hm]
            rw [hcond]
            rfl
      | activateView p v =>
          show ((activate (run s []) p v).filter
              (fun e => !(decide (e ∈ closed)))).head? =
            (if Entry.mk p v ∈ closed then specHeadRev s.reverse closed
              else some (Entry.mk p v))
          by_cases hm : Entry.mk p v ∈ closed
          · rw [if_pos hm, activate, List.filter_cons]
            have hcond : (!(decide (Entry.mk p v ∈ closed))) = false := by
              simp [hm]
            rw [hcond]
            simp only [Bool.false_eq_true, if_false]
            rw [removeEntry_filter_closed, ih hacs (Entry.mk p v :: closed)]
            apply specHeadRev_congr
            intro x
            constructor
            · intro hx
              rcases List.mem_cons.mp hx with h1 | h1
              · exact h1 ▸ hm
              · exact h1
            · exact fun hx => List.mem_cons.mpr (Or.inr hx)
          · rw [if_neg hm, activate, List.filter_cons]
            have hcond : (!(decide (Entry.mk p v ∈ closed))) = true := by
              simp [hm]
            rw [hcond]
            rfl
      | closeViewEvent p v =>
          show ((closeView (run s []) p v).filter
              (fun e => !(decide (e ∈ closed)))).head? =
            specHeadRev s.reverse (Entry.mk p v :: closed)
          rw [closeView, removeEntry_filter_closed]
          exact ih hacs (Entry.mk p v :: closed)
      | openInactiveView p a v => simp [isAC] at hace
      | closePaneEvent p => simp [isAC] at hace
      | copyPaneEvent p q => simp [isAC] at hace

/-- C1: for every sequence of open-active, activate and close events the
entry at index 0 of the list is the most recently activated (or most
recently opened-active) pair among those not closed afterwards; in
particular, opening views 1, 2, 3 active in pane 0 gives the list
3, 2, 1, re-activating 2 gives 2, 3, 1, closing 1 gives 2, 3, and
closing everything gives the empty list. -/
theorem c1_head_is_most_recently_activated :
    (∀ s : List Event, (∀ e ∈ s, isAC e = true) →
      (run s []).head? = specHead s) ∧
    run [Event.openActive 0 1, Event.openActive 0 2, Event.openActive 0 3] [] =
      [Entry.mk 0 3, Entry.mk 0 2, Entry.mk 0 1] ∧
    run [Event.openActive 0 1, Event.openActive 0 2, Event.openActive 0 3,
      Event.activateView 0 2] [] =
      [Entry.mk 0 2, Entry.mk 0 3, Entry.mk 0 1] ∧
    run [Event.openActive 0 1, Event.openActive 0 2, Event.openActive 0 3,
      Event.activateView 0 2, Event.closeViewEvent 0 1] [] =
      [Entry.mk 0 2, Entry.mk 0 3] ∧
    run [Event.openActive 0 1, Event.openActive 0 2, Event.openActive 0 3,
      Event.activateView 0 2, Event.closeViewEvent 0 1,
      Event.closeViewEvent 0 2, Event.closeViewEvent 0 3] [] = [] := by
  refine ⟨?_, by decide, by decide, by decide, by decide⟩
  intro s hac
  have h := run_head_specHeadRev s hac []
  have hfil : (run s []).filter (fun e => !(decide (e ∈ ([] : List Entry)))) =
      run s [] := by
    apply List.filter_eq_self.mpr
    intro a _
    simp
  rw [hfil] at h
  exact h

/-- C1 witness: a concrete mixed sequence across two panes: after opening
view 1 active in pane 0, activating view 2 in pane 1 and then closing it
again, the head is the entry of pane 0, as the reference function
predicts. -/
theorem c1_head_is_most_recently_activated_witness :
    (run [Event.openActive 0 1, Event.activateView 1 2,
      Event.closeViewEvent 1 2] []).head? =
      specHead [Event.openActive 0 1, Event.activateView 1 2,
        Event.closeViewEvent 1 2] :=
  c1_head_is_most_recently_activated.1
    [Event.openActive 0 1, Event.activateView 1 2, Event.closeViewEvent 1 2]
    (by decide)
